import Mathlib

/-!
Shallow embedding of the tab/session bookkeeping layer of the shellflow
repository: the drawer tab store (`useDrawerTabs`), the scratch-terminal
store (`useScratchTerminals`), the focus-scoped terminal registry
(`terminalRegistry.ts`), the PTY output subscription filter (`usePty`),
the resize debouncer (`Terminal.tsx`), and the ambient-signal routing of
`MainPane.tsx`.  JavaScript `Map<string, V>` values are modelled as
functions `String → Option V`; JS reference identity of React state is
modelled by value equality of these functions (each store updater either
returns its input state unchanged or builds a new one, exactly as the
source returns `prev` or a fresh `Map`).
-/

namespace Shellflow

/-- Model of a JS `Map<string, β>`: lookup function. Insertion order is not
observed by any of the operations under study. -/
def StrMap (β : Type) : Type := String → Option β

/-- `m.set(k, v)` of a JS Map. -/
def StrMap.set {β : Type} (m : StrMap β) (k : String) (v : β) : StrMap β :=
  fun q => if q = k then some v else m q

/-- `m.delete(k)` of a JS Map. -/
def StrMap.delete {β : Type} (m : StrMap β) (k : String) : StrMap β :=
  fun q => if q = k then none else m q

/-- `new Map()`. -/
def StrMap.empty {β : Type} : StrMap β := fun _ => none

/-- `type` field of a `DrawerTab` (`'terminal' | 'task'` in `Drawer.tsx`). -/
inductive DrawerTabType where
  | terminal
  | task
deriving DecidableEq, Repr

/-- The `DrawerTab` interface of `Drawer.tsx`:
`{ id: string; label: string; type: 'terminal' | 'task'; taskName?: string }`. -/
structure DrawerTab where
  id : String
  label : String
  type : DrawerTabType
  taskName : Option String
deriving DecidableEq, Repr

/-- The state held by the `useDrawerTabs` hook: the four `useState` maps. -/
structure DrawerTabsState where
  drawerTabs : StrMap (List DrawerTab)
  drawerActiveTabIds : StrMap String
  drawerTabCounters : StrMap Nat
  drawerPtyIds : StrMap String

/-- The initial state of `useDrawerTabs` (four empty maps). -/
def initDrawerState : DrawerTabsState :=
  { drawerTabs := StrMap.empty
    drawerActiveTabIds := StrMap.empty
    drawerTabCounters := StrMap.empty
    drawerPtyIds := StrMap.empty }

/-- `addTab(entityId, tab)`: appends the tab to the entity's list and makes
it the active tab. -/
def addTab (st : DrawerTabsState) (entityId : String) (tab : DrawerTab) :
    DrawerTabsState :=
  { st with
    drawerTabs :=
      st.drawerTabs.set entityId (((st.drawerTabs entityId).getD []) ++ [tab])
    drawerActiveTabIds := st.drawerActiveTabIds.set entityId tab.id }

/-- `removeTab(entityId, tabId)`: filters the tab out, computes the new
active tab id as the last remaining tab (`remaining[remaining.length - 1]`)
or `null`, updates the active pointer only when the removed tab was active
(`if (newActiveTabId)` is a JS truthiness test, so a `null` or `""` result
deletes the pointer), and returns the new active id synchronously. -/
def removeTab (st : DrawerTabsState) (entityId tabId : String) :
    Option String × DrawerTabsState :=
  let currentTabs := (st.drawerTabs entityId).getD []
  let remaining := currentTabs.filter (fun t => t.id != tabId)
  let newActiveTabId := (remaining.getLast?).map (fun t => t.id)
  let tabs1 := st.drawerTabs.set entityId remaining
  let active1 :=
    if st.drawerActiveTabIds entityId = some tabId then
      match newActiveTabId with
      | some a =>
          if a = "" then st.drawerActiveTabIds.delete entityId
          else st.drawerActiveTabIds.set entityId a
      | none => st.drawerActiveTabIds.delete entityId
    else st.drawerActiveTabIds
  (newActiveTabId, { st with drawerTabs := tabs1, drawerActiveTabIds := active1 })

/-- `setActiveTab(entityId, tabId)`: returns `prev` unchanged when the tab
is already active, otherwise sets the pointer (no membership check). -/
def setActiveTab (st : DrawerTabsState) (entityId tabId : String) :
    DrawerTabsState :=
  if st.drawerActiveTabIds entityId = some tabId then st
  else { st with drawerActiveTabIds := st.drawerActiveTabIds.set entityId tabId }

/-- Model of `arrayMove` from `@dnd-kit/sortable` (an external library):
remove the element at `i` and re-insert it at `j` (clamped to the new
length, as JS `splice` clamps). For an out-of-range `i` the JS code would
splice in an `undefined` hole; we leave the list unchanged there, which is
indistinguishable for every property below (no element is ever lost). -/
def arrayMove {α : Type} (l : List α) (i j : Nat) : List α :=
  match l[i]? with
  | none => l
  | some x => (l.eraseIdx i).insertIdx (min j (l.eraseIdx i).length) x

/-- `reorderTabs(entityId, oldIndex, newIndex)`: `arrayMove` on the entity's
list; returns `prev` when the entity has no list. -/
def reorderTabs (st : DrawerTabsState) (entityId : String) (i j : Nat) :
    DrawerTabsState :=
  match st.drawerTabs entityId with
  | none => st
  | some tabs =>
      { st with drawerTabs := st.drawerTabs.set entityId (arrayMove tabs i j) }

/-- `incrementCounter(entityId)`: bumps the per-entity counter (default 0)
and synchronously returns the new value. -/
def incrementCounter (st : DrawerTabsState) (entityId : String) :
    Nat × DrawerTabsState :=
  let n := (st.drawerTabCounters entityId).getD 0 + 1
  (n, { st with drawerTabCounters := st.drawerTabCounters.set entityId n })

/-- The `setDrawerTabs` updater of `updateTabLabel(entityId, tabId, label)`.
`none` models the code paths that `return prev` (unknown entity, unknown
tab, or unchanged label); `some m` is the freshly built map. -/
def updateTabLabelCore (st : DrawerTabsState) (entityId tabId label : String) :
    Option (StrMap (List DrawerTab)) :=
  match st.drawerTabs entityId with
  | none => none
  | some tabs =>
    match tabs.findIdx? (fun t => t.id == tabId) with
    | none => none
    | some i =>
      match tabs[i]? with
      | none => none
      | some t =>
          if t.label = label then none
          else some (st.drawerTabs.set entityId (tabs.set i { t with label := label }))

/-- `updateTabLabel(entityId, tabId, label)` as a state transition. -/
def updateTabLabel (st : DrawerTabsState) (entityId tabId label : String) :
    DrawerTabsState :=
  match updateTabLabelCore st entityId tabId label with
  | none => st
  | some m => { st with drawerTabs := m }

/-- `clearEntityTabs(entityId)`: deletes the entity's tab list, active
pointer and counter. (The source first tests `has` and returns `prev` when
the key is absent; deleting an absent key is the same map.) -/
def clearEntityTabs (st : DrawerTabsState) (entityId : String) :
    DrawerTabsState :=
  { st with
    drawerTabs := st.drawerTabs.delete entityId
    drawerActiveTabIds := st.drawerActiveTabIds.delete entityId
    drawerTabCounters := st.drawerTabCounters.delete entityId }

/-- The store operations exposed by `useDrawerTabs` that mutate per-entity
tab state. -/
inductive DrawerOp where
  | addTab (entityId : String) (tab : DrawerTab)
  | removeTab (entityId tabId : String)
  | setActiveTab (entityId tabId : String)
  | reorderTabs (entityId : String) (oldIndex newIndex : Nat)
  | updateTabLabel (entityId tabId label : String)
  | incrementCounter (entityId : String)
  | clearEntityTabs (entityId : String)
deriving DecidableEq, Repr

/-- One step of the store. -/
def applyOp (st : DrawerTabsState) : DrawerOp → DrawerTabsState
  | .addTab e tab => addTab st e tab
  | .removeTab e t => (removeTab st e t).2
  | .setActiveTab e t => setActiveTab st e t
  | .reorderTabs e i j => reorderTabs st e i j
  | .updateTabLabel e t l => updateTabLabel st e t l
  | .incrementCounter e => (incrementCounter st e).2
  | .clearEntityTabs e => clearEntityTabs st e

/-- Run a sequence of store operations. -/
def runOps (st : DrawerTabsState) : List DrawerOp → DrawerTabsState
  | [] => st
  | op :: ops => runOps (applyOp st op) ops

/-- The values returned by the `incrementCounter` calls of a run, each
tagged with its entity, in call order. -/
def counterOutputs (st : DrawerTabsState) : List DrawerOp → List (String × Nat)
  | [] => []
  | op :: ops =>
    match op with
    | .incrementCounter e =>
        (e, (incrementCounter st e).1) :: counterOutputs (applyOp st op) ops
    | _ => counterOutputs (applyOp st op) ops

/-- The `incrementCounter` return values of one entity, in call order. -/
def counterOutputsFor (e : String) (st : DrawerTabsState) (ops : List DrawerOp) :
    List Nat :=
  (counterOutputs st ops).filterMap (fun p => if p.1 = e then some p.2 else none)

/-- The ids of an entity's tabs, in display order. -/
def tabIds (st : DrawerTabsState) (entityId : String) : List String :=
  ((st.drawerTabs entityId).getD []).map (fun t => t.id)

/-- The §3 invariant under study in C3: a non-null active tab id is a member
of its entity's tab list. -/
def ActiveTabInv (st : DrawerTabsState) : Prop :=
  ∀ e a, st.drawerActiveTabIds e = some a → a ∈ tabIds st e

/-- A step is "good" when `setActiveTab` only targets a tab currently in the
entity's list (all other operations are unrestricted). -/
def goodStep (st : DrawerTabsState) : DrawerOp → Bool
  | .setActiveTab e t => (tabIds st e).contains t
  | _ => true

/-- A run is valid when every step is good in the state it executes in. -/
def validRun (st : DrawerTabsState) : List DrawerOp → Bool
  | [] => true
  | op :: ops => goodStep st op && validRun (applyOp st op) ops

/-- Spec-side definition, from the wording of C1: the id of the tab
immediately preceding `tabId` in display order, if any. -/
def specPrecedingTabId (tabs : List DrawerTab) (tabId : String) : Option String :=
  match tabs.findIdx? (fun t => t.id == tabId) with
  | some (i + 1) => (tabs[i]?).map (fun t => t.id)
  | _ => none

/-! ### Focus-scoped terminal registry (`src/lib/terminalRegistry.ts`)

The module-level slot `activeTerminal : TerminalFunctions | null` is the
state; `TerminalFunctions` objects are compared by JS reference identity
(`activeTerminal === fns`), modelled by a handle type with decidable
equality. -/

/-- `registerActiveTerminal(fns)`: unconditionally replaces the slot. -/
def registerActiveTerminal {α : Type} (fns : α) (_active : Option α) : Option α :=
  some fns

/-- `unregisterActiveTerminal(fns)`: clears the slot only when `fns` is the
currently registered handle. -/
def unregisterActiveTerminal {α : Type} [DecidableEq α] (fns : α)
    (active : Option α) : Option α :=
  if active = some fns then none else active

/-! ### PTY event routing (`usePty` in the source, plus the drawer
terminal's exit listener) -/

/-- The payload of a `pty-output` event. -/
structure PtyOutput where
  pty_id : String
  data : String
deriving DecidableEq, Repr

/-- The subscription installed by `usePty.spawn`: the listener forwards the
event's data to the hook's `onOutput` callback exactly when
`event.payload.pty_id === id`, where `id` is the ptyId returned by the
spawn that installed the listener. `none` means the callback is not
invoked. -/
def ptyOutputDelivered (subscribedId : String) (ev : PtyOutput) : Option String :=
  if ev.pty_id = subscribedId then some ev.data else none

/-- Modelled from the spec: the drawer terminal component itself
(`DrawerTerminal.tsx`) is not among the provided sources, only its tests;
per the spec ("output/exit events for a ptyId are delivered only to the tab
that owns it") and the test "does not call onClose for different PTY", its
`pty-exit` listener fires the tab's close handler exactly when the event's
ptyId equals the tab's own ptyId. -/
def ptyExitCloseFired (ownPtyId : String) (exitPtyId : String) : Bool :=
  exitPtyId == ownPtyId

/-! ### Resize debouncing (`Terminal.tsx`)

`debounce(fn, ms)` keeps a single pending timeout: every call clears the
pending timeout and schedules `fn` `ms` later.  A request therefore fires
exactly when no further request arrives strictly before its timeout
expires.  The debounced callback measures the container size at fire time;
since no request intervened between the firing request and its fire time,
that is the firing request's size.  It returns without calling the backend
when no ptyId is known (`if (!ptyIdRef.current) return`), and the
`ResizeObserver` that produces the requests is only attached once a ptyId
exists. -/

/-- A UI resize request: arrival time in ms and the requested size. -/
structure ResizeRequest where
  time : Nat
  cols : Nat
  rows : Nat
deriving DecidableEq, Repr

/-- The requests whose `setTimeout` actually fires under `debounce fn ms`:
the last request always fires; an earlier request fires only if the next
request arrives at or after its expiry. -/
def debounceFires (ms : Nat) : List ResizeRequest → List ResizeRequest
  | [] => []
  | [r] => [r]
  | r :: r2 :: rest =>
      (if r.time + ms ≤ r2.time then [r] else []) ++ debounceFires ms (r2 :: rest)

/-- The backend `resize` calls issued for a request sequence: one per fired
timeout, with the size measured at fire time, and none at all while no
ptyId is known. -/
def debouncedResizeCalls (ptyId : Option String) (ms : Nat)
    (reqs : List ResizeRequest) : List (String × Nat × Nat) :=
  match ptyId with
  | none => []
  | some p => (debounceFires ms reqs).map (fun r => (p, r.cols, r.rows))

/-! ### Ambient-signal routing (`MainPane.tsx`) -/

/-- The MainPane props that determine ambient routing: `activeSessionId`,
`activeSessionTabId` and `lastActiveSessionTabId`, each `string | null`. -/
structure AmbientCtx where
  activeSessionId : Option String
  activeSessionTabId : Option String
  lastActiveSessionTabId : Option String
deriving DecidableEq, Repr

/-- `isActiveTab` of `MainPane.tsx`: the tab belongs to the active session
and is its active tab. -/
def isActiveTab (ctx : AmbientCtx) (sessionId tabId : String) : Bool :=
  (ctx.activeSessionId == some sessionId) && (ctx.activeSessionTabId == some tabId)

/-- `isLastActiveTab` of `MainPane.tsx`:
`lastActiveSessionTabId ? tab.id === lastActiveSessionTabId : isActiveTab`.
The JS condition is a truthiness test, so an empty-string value also falls
back to `isActiveTab`. -/
def isLastActiveTab (ctx : AmbientCtx) (sessionId tabId : String) : Bool :=
  match ctx.lastActiveSessionTabId with
  | some l => if l = "" then isActiveTab ctx sessionId tabId else tabId == l
  | none => isActiveTab ctx sessionId tabId

/-- `handleThinkingChange` in legacy mode (no per-tab `onThinkingChange`
prop): the session-level thinking consumer is invoked exactly when the
originating tab is the last-active tab. -/
def legacyThinkingForwarded (ctx : AmbientCtx) (sessionId tabId : String) : Bool :=
  isLastActiveTab ctx sessionId tabId

/-- Spec-side definition, from the wording of C9: the signal should reach
the session-level consumer iff the originating tab is the session's
last-active tab, a null last-active tab defaulting to the active tab. -/
def specAmbientTarget (ctx : AmbientCtx) (sessionId tabId : String) : Prop :=
  match ctx.lastActiveSessionTabId with
  | some l => tabId = l
  | none => ctx.activeSessionId = some sessionId ∧ ctx.activeSessionTabId = some tabId

/-! ### Scratch terminals (`useScratchTerminals.ts`) -/

/-- The `ScratchTerminal` record created by `addScratchTerminal`. -/
structure ScratchTerminal where
  id : String
  name : String
  order : Nat
deriving DecidableEq, Repr

/-- The state of `useScratchTerminals`: the terminal list, the monotonic
counter, the per-terminal cwd map and the (externally fetched) home
directory. -/
structure ScratchState where
  scratchTerminals : List ScratchTerminal
  scratchTerminalCounter : Nat
  scratchCwds : StrMap String
  homeDir : Option String

/-- The id string minted for counter value `n`: the template literal
`scratch-(n)` of the source. -/
def scratchIdOf (n : Nat) : String :=
  "scratch-" ++ Nat.repr n

/-- `addScratchTerminal()`: mints `scratch-(counter+1)`, appends the new
terminal, bumps the counter, seeds its cwd when the home directory is
known, and returns the new record. -/
def addScratchTerminal (st : ScratchState) : ScratchTerminal × ScratchState :=
  let newCounter := st.scratchTerminalCounter + 1
  let newScratch : ScratchTerminal :=
    { id := scratchIdOf newCounter
      name := "Terminal " ++ Nat.repr newCounter
      order := st.scratchTerminals.length }
  (newScratch,
    { st with
      scratchTerminals := st.scratchTerminals ++ [newScratch]
      scratchTerminalCounter := newCounter
      scratchCwds :=
        match st.homeDir with
        | some h => st.scratchCwds.set newScratch.id h
        | none => st.scratchCwds })

/-- `closeScratchTerminal(id)`: filters the terminal out and drops its cwd.
The counter is untouched. -/
def closeScratchTerminal (st : ScratchState) (scratchId : String) : ScratchState :=
  { st with
    scratchTerminals := st.scratchTerminals.filter (fun s => s.id != scratchId)
    scratchCwds := st.scratchCwds.delete scratchId }

/-- The scratch-terminal store operations of C10. -/
inductive ScratchOp where
  | add
  | close (id : String)
deriving DecidableEq, Repr

/-- One step of the scratch store. -/
def applyScratchOp (st : ScratchState) : ScratchOp → ScratchState
  | .add => (addScratchTerminal st).2
  | .close i => closeScratchTerminal st i

/-- The ids returned by the `addScratchTerminal` calls of a run, in call
order (the creation history of the store instance). -/
def scratchCreatedIds (st : ScratchState) : List ScratchOp → List String
  | [] => []
  | .add :: ops =>
      (addScratchTerminal st).1.id :: scratchCreatedIds (applyScratchOp st .add) ops
  | .close i :: ops => scratchCreatedIds (applyScratchOp st (.close i)) ops

/-- The initial scratch store state (before the home directory arrives). -/
def initScratchState : ScratchState :=
  { scratchTerminals := []
    scratchTerminalCounter := 0
    scratchCwds := StrMap.empty
    homeDir := none }

/-- The condition (from the wording of C7, first-match reading of "the
tab") under which `updateTabLabel` must be a true no-op: unknown entity,
unknown tab id, or a label equal to the tab's current label. -/
def updateLabelNoop (st : DrawerTabsState) (e tabId label : String) : Prop :=
  match st.drawerTabs e with
  | none => True
  | some tabs =>
    match tabs.find? (fun t => t.id == tabId) with
    | none => True
    | some t => t.label = label

/-- A concrete tab used by witnesses and counterexamples. -/
def exampleTab1 : DrawerTab :=
  { id := "t1", label := "Terminal 1", type := .terminal, taskName := none }

/-- A concrete tab used by witnesses and counterexamples. -/
def exampleTab2 : DrawerTab :=
  { id := "t2", label := "Terminal 2", type := .terminal, taskName := none }

/-- A concrete tab used by witnesses and counterexamples. -/
def exampleTab3 : DrawerTab :=
  { id := "t3", label := "Terminal 3", type := .terminal, taskName := none }

/-- A store holding one entity with a single tab `t1` (which is active). -/
def exampleState1 : DrawerTabsState :=
  runOps initDrawerState [.addTab "s" exampleTab1]

/-- A store holding one entity with tabs `t1, t2, t3` in display order and
`t2` active. -/
def exampleState3 : DrawerTabsState :=
  runOps initDrawerState
    [.addTab "s" exampleTab1, .addTab "s" exampleTab2, .addTab "s" exampleTab3,
     .setActiveTab "s" "t2"]

/-- Decimal digit list of `n`, most significant first: the reference
rendering that `Nat.toDigitsCore` (and hence `Nat.repr`, the meaning of a
JS template literal on a number) computes. -/
def decDigits (n : Nat) : List Char :=
  if h : n < 10 then [Nat.digitChar n]
  else decDigits (n / 10) ++ [Nat.digitChar (n % 10)]
decreasing_by
  exact Nat.div_lt_self (by omega) (by omega)

/-! ## Helper lemmas -/

theorem StrMap.get_set_self {β : Type} (m : StrMap β) (k : String) (v : β) :
    m.set k v k = some v := by
  simp [StrMap.set]

theorem StrMap.get_set_ne {β : Type} (m : StrMap β) (k q : String) (v : β)
    (h : q ≠ k) : m.set k v q = m q := by
  simp [StrMap.set, h]

theorem StrMap.get_delete_self {β : Type} (m : StrMap β) (k : String) :
    m.delete k k = none := by
  simp [StrMap.delete]

theorem StrMap.get_delete_ne {β : Type} (m : StrMap β) (k q : String)
    (h : q ≠ k) : m.delete k q = m q := by
  simp [StrMap.delete, h]

theorem decDigits_lt {n : Nat} (h : n < 10) :
    decDigits n = [Nat.digitChar n] := by
  rw [decDigits, dif_pos h]

theorem decDigits_ge {n : Nat} (h : ¬ n < 10) :
    decDigits n = decDigits (n / 10) ++ [Nat.digitChar (n % 10)] := by
  conv_lhs => rw [decDigits]
  rw [dif_neg h]

theorem decDigits_ne_nil (n : Nat) : decDigits n ≠ [] := by
  rw [decDigits]
  split <;> simp

theorem digitChar_inj_lt :
    ∀ a : Nat, a < 10 → ∀ b : Nat, b < 10 →
      Nat.digitChar a = Nat.digitChar b → a = b := by
  decide

theorem decDigits_inj : ∀ m n : Nat, decDigits m = decDigits n → m = n := by
  intro m
  induction m using Nat.strong_induction_on with
  | _ m ih =>
    intro n h
    by_cases hm : m < 10 <;> by_cases hn : n < 10
    · rw [decDigits_lt hm, decDigits_lt hn] at h
      exact digitChar_inj_lt m hm n hn (List.cons.inj h).1
    · rw [decDigits_lt hm, decDigits_ge hn] at h
      have hl := congrArg List.length h
      simp only [List.length_cons, List.length_append, List.length_nil] at hl
      have h0 : (decDigits (n / 10)).length = 0 := by omega
      exact absurd (List.length_eq_zero.mp h0) (decDigits_ne_nil _)
    · rw [decDigits_ge hm, decDigits_lt hn] at h
      have hl := congrArg List.length h
      simp only [List.length_cons, List.length_append, List.length_nil] at hl
      have h0 : (decDigits (m / 10)).length = 0 := by omega
      exact absurd (List.length_eq_zero.mp h0) (decDigits_ne_nil _)
    · rw [decDigits_ge hm, decDigits_ge hn] at h
      have hr := congrArg List.reverse h
      simp only [List.reverse_append, List.reverse_cons, List.reverse_nil,
        List.nil_append, List.singleton_append, List.cons.injEq] at hr
      have hdig : m % 10 = n % 10 :=
        digitChar_inj_lt _ (Nat.mod_lt _ (by omega)) _ (Nat.mod_lt _ (by omega)) hr.1
      have hdiv : m / 10 = n / 10 :=
        ih (m / 10) (Nat.div_lt_self (by omega) (by omega)) _
          (List.reverse_injective hr.2)
      omega

theorem toDigitsCore_eq_decDigits :
    ∀ (f n : Nat) (l : List Char), n < f →
      Nat.toDigitsCore 10 f n l = decDigits n ++ l := by
  intro f
  induction f with
  | zero => intro n l h; omega
  | succ f ih =>
    intro n l h
    by_cases h10 : n / 10 = 0
    · have hn : n < 10 := by omega
      have hmod : n % 10 = n := Nat.mod_eq_of_lt hn
      simp only [Nat.toDigitsCore, h10, if_true, hmod]
      rw [decDigits_lt hn]
      rfl
    · have hn : ¬ n < 10 := by
        intro hlt
        exact h10 (Nat.div_eq_of_lt hlt)
      simp only [Nat.toDigitsCore, h10, if_false]
      rw [ih (n / 10) _ (by omega), decDigits_ge hn]
      simp

theorem repr_eq_decDigits (n : Nat) : Nat.repr n = (decDigits n).asString := by
  unfold Nat.repr Nat.toDigits
  rw [toDigitsCore_eq_decDigits (n + 1) n [] (by omega)]
  simp

theorem asString_inj {a b : List Char} (h : a.asString = b.asString) : a = b := by
  have := congrArg String.data h
  simpa [List.asString] using this

theorem nat_repr_inj {m n : Nat} (h : Nat.repr m = Nat.repr n) : m = n := by
  apply decDigits_inj
  apply asString_inj
  rw [← repr_eq_decDigits, ← repr_eq_decDigits]
  exact h

theorem scratchIdOf_inj {m n : Nat} (h : scratchIdOf m = scratchIdOf n) :
    m = n := by
  have hd := congrArg String.data h
  simp only [scratchIdOf, String.data_append] at hd
  have hdata : (Nat.repr m).data = (Nat.repr n).data := List.append_cancel_left hd
  exact nat_repr_inj (String.ext hdata)

theorem scratchCreatedIds_spec :
    ∀ (ops : List ScratchOp) (st : ScratchState),
      (scratchCreatedIds st ops).Pairwise (· ≠ ·) ∧
      ∀ id ∈ scratchCreatedIds st ops,
        ∃ k, st.scratchTerminalCounter < k ∧ id = scratchIdOf k := by
  intro ops
  induction ops with
  | nil =>
    intro st
    refine ⟨List.Pairwise.nil, ?_⟩
    simp [scratchCreatedIds]
  | cons op ops ih =>
    intro st
    cases op with
    | add =>
      obtain ⟨hpw, hbd⟩ := ih (applyScratchOp st .add)
      have hcnt : (applyScratchOp st ScratchOp.add).scratchTerminalCounter =
          st.scratchTerminalCounter + 1 := rfl
      have hhead : (addScratchTerminal st).1.id =
          scratchIdOf (st.scratchTerminalCounter + 1) := rfl
      constructor
      · rw [scratchCreatedIds]
        refine List.Pairwise.cons ?_ hpw
        intro id hid he
        obtain ⟨k, hk, rfl⟩ := hbd id hid
        rw [hcnt] at hk
        rw [hhead] at he
        have : st.scratchTerminalCounter + 1 = k := scratchIdOf_inj he
        omega
      · intro id hid
        rw [scratchCreatedIds] at hid
        rcases List.mem_cons.mp hid with rfl | hid
        · exact ⟨st.scratchTerminalCounter + 1, by omega, hhead⟩
        · obtain ⟨k, hk, rfl⟩ := hbd id hid
          rw [hcnt] at hk
          exact ⟨k, by omega, rfl⟩
    | close i =>
      obtain ⟨hpw, hbd⟩ := ih (applyScratchOp st (.close i))
      have hcnt : (applyScratchOp st (ScratchOp.close i)).scratchTerminalCounter =
          st.scratchTerminalCounter := rfl
      refine ⟨hpw, ?_⟩
      intro id hid
      obtain ⟨k, hk, rfl⟩ := hbd id hid
      rw [hcnt] at hk
      exact ⟨k, hk, rfl⟩

/-- C10: over any sequence of `addScratchTerminal` / `closeScratchTerminal`
calls on one scratch store instance, the ids returned by the adds are
pairwise distinct — each new id differs from every previously created one,
including those of already-closed terminals, because the minting counter
only increments and is never reset by a close. -/
theorem scratch_ids_distinct (ops : List ScratchOp) :
    (scratchCreatedIds initScratchState ops).Pairwise (· ≠ ·) :=
  (scratchCreatedIds_spec ops initScratchState).1

/-- C6: `registerActive` always replaces the current registration with the
given handle; `unregisterActive(h2)` clears the slot iff `h2` is the
currently registered handle, so a stale unregister of an older handle
leaves a newer registration intact. -/
theorem terminalRegistry_register_unregister {α : Type} [DecidableEq α]
    (active : Option α) (h h2 : α) :
    registerActiveTerminal h active = some h ∧
    (unregisterActiveTerminal h2 (some h) = none ↔ h2 = h) ∧
    (h2 ≠ h →
      unregisterActiveTerminal h2 (registerActiveTerminal h active) = some h) := by
  refine ⟨rfl, ?_, ?_⟩
  · by_cases he : h2 = h
    · subst he
      simp [unregisterActiveTerminal]
    · have : ¬ (some h = some h2) := by
        simp [Option.some_inj]
        exact fun h3 => he h3.symm
      simp [unregisterActiveTerminal, this, he]
  · intro hne
    have : ¬ (some h = some h2) := by
      simp [Option.some_inj]
      exact fun h3 => hne h3.symm
    simp [unregisterActiveTerminal, registerActiveTerminal, this]

/-- Witness for C6 at concrete handles: handle 1 registered over 0, then a
stale unregister of 2 leaves 1 registered. -/
theorem terminalRegistry_register_unregister_witness :
    unregisterActiveTerminal 2 (registerActiveTerminal 1 (some 0)) =
      some (1 : Nat) :=
  (terminalRegistry_register_unregister (some 0) 1 2).2.2 (by decide)

/-- C5: a PTY subscriber created with ptyId `p` never receives an output
event whose ptyId differs from `p`; delivery happens exactly for its own
ptyId (so events for `p` reach only the subscriber filtering on `p`, and no
cross-talk between tabs is possible). The drawer terminal's exit listener
(modelled from the spec) likewise fires only for its own ptyId. -/
theorem pty_no_crosstalk (p : String) (ev : PtyOutput) :
    (ev.pty_id ≠ p → ptyOutputDelivered p ev = none) ∧
    (∀ d, ptyOutputDelivered p ev = some d → ev.pty_id = p ∧ d = ev.data) ∧
    (ev.pty_id = p → ptyOutputDelivered p ev = some ev.data) ∧
    (∀ q, ptyExitCloseFired p q = true ↔ q = p) := by
  refine ⟨?_, ?_, ?_, ?_⟩
  · intro hne
    simp [ptyOutputDelivered, hne]
  · intro d hd
    by_cases he : ev.pty_id = p
    · simp [ptyOutputDelivered, he] at hd
      exact ⟨he, hd.symm⟩
    · simp [ptyOutputDelivered, he] at hd
  · intro he
    simp [ptyOutputDelivered, he]
  · intro q
    simp [ptyExitCloseFired]

/-- Witness for C5: `output(p9, "x")` is not delivered to `p1`'s
subscriber, while `output(p1, "hello")` is. -/
theorem pty_no_crosstalk_witness :
    ptyOutputDelivered "p1" ⟨"p9", "x"⟩ = none ∧
    ptyOutputDelivered "p1" ⟨"p1", "hello"⟩ = some "hello" :=
  ⟨(pty_no_crosstalk "p1" ⟨"p9", "x"⟩).1 (by decide),
   (pty_no_crosstalk "p1" ⟨"p1", "hello"⟩).2.2.1 rfl⟩

theorem debounceFires_of_gaps (ms : Nat) :
    ∀ (reqs : List ResizeRequest) (h : reqs ≠ []),
      List.Chain' (fun a b => b.time < a.time + ms) reqs →
      debounceFires ms reqs = [reqs.getLast h] := by
  intro reqs
  induction reqs with
  | nil => intro h; cases h rfl
  | cons r rest ih =>
    intro h hc
    cases rest with
    | nil => rfl
    | cons r2 rest2 =>
      have hgap : r2.time < r.time + ms := (List.chain'_cons.mp hc).1
      have htl := ih (by simp) (List.chain'_cons.mp hc).2
      rw [debounceFires, if_neg (by omega), List.nil_append, htl]
      congr 1

/-- C8: a sequence of UI resize requests for the same ptyId whose
consecutive arrivals all fall within the 100 ms debounce window produces
exactly one backend `resize` call, carrying the final requested size; and
while no ptyId is known, no backend resize call at all is issued. -/
theorem debounce_single_resize (p : String) (reqs : List ResizeRequest)
    (h : reqs ≠ [])
    (hgaps : List.Chain' (fun a b => b.time < a.time + 100) reqs) :
    debouncedResizeCalls (some p) 100 reqs =
      [(p, (reqs.getLast h).cols, (reqs.getLast h).rows)] ∧
    debouncedResizeCalls none 100 reqs = [] := by
  constructor
  · simp [debouncedResizeCalls, debounceFires_of_gaps 100 reqs h hgaps]
  · rfl

/-- Witness for C8: three requests 30 ms apart collapse into one backend
call with the last size. -/
theorem debounce_single_resize_witness :
    debouncedResizeCalls (some "p1") 100
      [⟨0, 80, 24⟩, ⟨30, 100, 30⟩, ⟨60, 120, 40⟩] = [("p1", 120, 40)] ∧
    debouncedResizeCalls none 100
      [⟨0, 80, 24⟩, ⟨30, 100, 30⟩, ⟨60, 120, 40⟩] = [] := by
  have h := debounce_single_resize "p1"
    [⟨0, 80, 24⟩, ⟨30, 100, 30⟩, ⟨60, 120, 40⟩] (by decide)
    (by norm_num [List.chain'_cons])
  simpa using h

/-- C9: in legacy (session-level consumer) mode, a thinking-state change
originating from a tab is forwarded iff that tab is the session's current
last-active tab, where a null last-active tab id defaults to the session's
active tab. (Hypothesis: the last-active id, when set, is not the empty
string — ids never are.) -/
theorem ambient_routing_lastActive (ctx : AmbientCtx) (sessionId tabId : String)
    (hne : ctx.lastActiveSessionTabId ≠ some "") :
    legacyThinkingForwarded ctx sessionId tabId = true ↔
      specAmbientTarget ctx sessionId tabId := by
  unfold legacyThinkingForwarded isLastActiveTab specAmbientTarget
  cases hl : ctx.lastActiveSessionTabId with
  | none => simp [isActiveTab, and_comm]
  | some l =>
    have hl0 : l ≠ "" := by
      intro he
      exact hne (by rw [hl, he])
    simp [hl0]

/-- Witness for C9: with last-active set to `t2`, a signal from `t2` is
forwarded and the spec-side target condition holds. -/
theorem ambient_routing_lastActive_witness :
    legacyThinkingForwarded ⟨some "s", some "t1", some "t2"⟩ "s" "t2" = true ↔
      specAmbientTarget ⟨some "s", some "t1", some "t2"⟩ "s" "t2" :=
  ambient_routing_lastActive ⟨some "s", some "t1", some "t2"⟩ "s" "t2" (by decide)

/-- C1 (amended): removing an entity's currently-active tab removes it from
the list and sets — and synchronously returns — the new active tab id
equal to the id of the LAST tab remaining in display order, or null if the
list becomes empty.  (This coincides with the tab immediately preceding
the removed tab exactly when the removed tab was last in display order;
see the counterexample for a middle tab.) -/
theorem removeTab_active_lastRemaining (st : DrawerTabsState) (e tabId : String)
    (hact : st.drawerActiveTabIds e = some tabId)
    (hne : ∀ t ∈ (st.drawerTabs e).getD [], t.id ≠ "") :
    (removeTab st e tabId).1 =
      ((((st.drawerTabs e).getD []).filter (fun t => t.id != tabId)).getLast?).map
        (fun t => t.id) ∧
    (removeTab st e tabId).2.drawerTabs e =
      some (((st.drawerTabs e).getD []).filter (fun t => t.id != tabId)) ∧
    (removeTab st e tabId).2.drawerActiveTabIds e = (removeTab st e tabId).1 := by
  refine ⟨rfl, StrMap.get_set_self _ _ _, ?_⟩
  cases hlast : (((st.drawerTabs e).getD []).filter (fun t => t.id != tabId)).getLast? with
  | none =>
      simp only [removeTab, hact, if_pos, hlast]
      simp [StrMap.get_delete_self]
  | some t =>
      have htmem : t ∈ (st.drawerTabs e).getD [] :=
        List.mem_of_mem_filter (List.mem_of_getLast?_eq_some hlast)
      have htne : t.id ≠ "" := hne t htmem
      simp only [removeTab, hact, if_pos, hlast]
      simp [htne, StrMap.get_set_self]

/-- Witness for C1: removing the active middle tab `t2` of `t1,t2,t3`
returns `t3` (the last remaining tab) and makes it active. -/
theorem removeTab_active_lastRemaining_witness :
    (removeTab exampleState3 "s" "t2").1 = some "t3" ∧
    (removeTab exampleState3 "s" "t2").2.drawerActiveTabIds "s" = some "t3" := by
  have h := removeTab_active_lastRemaining exampleState3 "s" "t2" (by decide)
    (by decide)
  refine ⟨?_, ?_⟩
  · rw [h.1]; rfl
  · rw [h.2.2, h.1]; rfl

/-- Counterexample for C1 as stated: with tabs `t1,t2,t3` and `t2` active,
`removeTab` returns `t3` and activates `t3`, while the tab immediately
preceding `t2` in display order is `t1`. -/
theorem removeTab_active_middle_counterexample :
    specPrecedingTabId ((exampleState3.drawerTabs "s").getD []) "t2" = some "t1" ∧
    (removeTab exampleState3 "s" "t2").1 = some "t3" ∧
    (removeTab exampleState3 "s" "t2").2.drawerActiveTabIds "s" = some "t3" ∧
    ("t3" : String) ≠ "t1" := by
  decide

/-- C4 (amended): for a tab id absent from an entity's tab list (with an
active pointer that, when set, points into the list), `removeTab` never
throws and leaves the tab-list contents of every entity, all active
pointers, the counters and the pty map unchanged, but returns the id of
the LAST tab in display order — null only when the list is empty, not
always null; and `setActiveTab` on an absent id never throws but is NOT a
no-op: it sets the active pointer to the absent id. -/
theorem absentTab_ops_spec (st : DrawerTabsState) (e tabId : String)
    (habs : tabId ∉ tabIds st e)
    (hinv : ∀ a, st.drawerActiveTabIds e = some a → a ∈ tabIds st e) :
    (removeTab st e tabId).1 =
      (((st.drawerTabs e).getD []).getLast?).map (fun t => t.id) ∧
    (∀ e2, ((removeTab st e tabId).2.drawerTabs e2).getD [] =
      (st.drawerTabs e2).getD []) ∧
    (removeTab st e tabId).2.drawerActiveTabIds = st.drawerActiveTabIds ∧
    (removeTab st e tabId).2.drawerTabCounters = st.drawerTabCounters ∧
    (removeTab st e tabId).2.drawerPtyIds = st.drawerPtyIds ∧
    (setActiveTab st e tabId).drawerActiveTabIds e = some tabId := by
  have hfilter : ((st.drawerTabs e).getD []).filter (fun t => t.id != tabId) =
      (st.drawerTabs e).getD [] := by
    apply List.filter_eq_self.mpr
    intro t ht
    simp only [bne_iff_ne, ne_eq]
    intro he
    apply habs
    rw [tabIds, ← he]
    exact List.mem_map_of_mem _ ht
  have hguard : ¬ (st.drawerActiveTabIds e = some tabId) := by
    intro hg
    exact habs (hinv tabId hg)
  refine ⟨?_, ?_, ?_, rfl, rfl, ?_⟩
  · simp only [removeTab]
    rw [hfilter]
  · intro e2
    by_cases he : e2 = e
    · subst he
      simp only [removeTab]
      rw [StrMap.get_set_self, hfilter]
      rfl
    · simp only [removeTab]
      rw [StrMap.get_set_ne _ _ _ _ he]
  · simp only [removeTab, if_neg hguard]
  · simp only [setActiveTab, if_neg hguard]
    exact StrMap.get_set_self _ _ _

/-- Witness for C4 (amended): in a store whose only tab is `t1` (active),
removing the absent id `zz` returns `t1`, and activating `zz` sets the
pointer to `zz`. -/
theorem absentTab_ops_spec_witness :
    (removeTab exampleState1 "s" "zz").1 = some "t1" ∧
    (setActiveTab exampleState1 "s" "zz").drawerActiveTabIds "s" = some "zz" := by
  have hinv : ∀ a, exampleState1.drawerActiveTabIds "s" = some a →
      a ∈ tabIds exampleState1 "s" := by
    intro a ha
    have h1 : exampleState1.drawerActiveTabIds "s" = some "t1" := by decide
    rw [h1] at ha
    injection ha with ha2
    subst ha2
    decide
  have h := absentTab_ops_spec exampleState1 "s" "zz" (by decide) hinv
  refine ⟨?_, h.2.2.2.2.2⟩
  rw [h.1]
  rfl

/-- Counterexample for C4 as stated: with the single tab `t1`, `removeTab`
on the absent id `zz` returns `t1` (not null), and `setActiveTab` on `zz`
moves the active pointer from `t1` to `zz` (not a no-op). -/
theorem absentTab_counterexample :
    (removeTab exampleState1 "s" "zz").1 ≠ none ∧
    exampleState1.drawerActiveTabIds "s" = some "t1" ∧
    (setActiveTab exampleState1 "s" "zz").drawerActiveTabIds "s" = some "zz" := by
  decide

theorem counters_applyOp_ne (st : DrawerTabsState) (e : String) (op : DrawerOp)
    (hop : op ≠ .clearEntityTabs e) (hop2 : op ≠ .incrementCounter e) :
    (applyOp st op).drawerTabCounters e = st.drawerTabCounters e := by
  cases op with
  | addTab e2 tab => rfl
  | removeTab e2 t => rfl
  | setActiveTab e2 t =>
      simp only [applyOp, setActiveTab]
      split <;> rfl
  | reorderTabs e2 i j =>
      simp only [applyOp, reorderTabs]
      split <;> rfl
  | updateTabLabel e2 t l =>
      simp only [applyOp, updateTabLabel]
      split <;> rfl
  | incrementCounter e2 =>
      have hne : e ≠ e2 := fun h => hop2 (by rw [h])
      simp only [applyOp, incrementCounter]
      exact StrMap.get_set_ne _ _ _ _ hne
  | clearEntityTabs e2 =>
      have hne : e ≠ e2 := fun h => hop (by rw [h])
      simp only [applyOp, clearEntityTabs]
      exact StrMap.get_delete_ne _ _ _ hne

theorem counterOutputsFor_chain (e : String) :
    ∀ (ops : List DrawerOp) (st : DrawerTabsState),
      DrawerOp.clearEntityTabs e ∉ ops →
      List.Chain' (· < ·) (counterOutputsFor e st ops) ∧
      ∀ v ∈ counterOutputsFor e st ops, (st.drawerTabCounters e).getD 0 < v := by
  intro ops
  induction ops with
  | nil =>
      intro st _
      exact ⟨trivial, by simp [counterOutputsFor, counterOutputs]⟩
  | cons op ops ih =>
      intro st hnot
      have hop : op ≠ .clearEntityTabs e := fun h => hnot (h ▸ List.mem_cons_self _ _)
      have hops : DrawerOp.clearEntityTabs e ∉ ops :=
        fun h => hnot (List.mem_cons_of_mem _ h)
      by_cases hinc : op = .incrementCounter e
      · subst hinc
        obtain ⟨hch, hbd⟩ := ih (applyOp st (.incrementCounter e)) hops
        have hcnt : ((applyOp st (.incrementCounter e)).drawerTabCounters e).getD 0 =
            (st.drawerTabCounters e).getD 0 + 1 := by
          simp [applyOp, incrementCounter, StrMap.get_set_self]
        have houts : counterOutputsFor e st (.incrementCounter e :: ops) =
            ((st.drawerTabCounters e).getD 0 + 1) ::
              counterOutputsFor e (applyOp st (.incrementCounter e)) ops := by
          simp [counterOutputsFor, counterOutputs, incrementCounter]
        rw [houts]
        constructor
        · apply List.chain'_cons'.mpr
          refine ⟨?_, hch⟩
          intro b hb
          have hbmem := List.mem_of_mem_head? hb
          have hlt := hbd b hbmem
          rw [hcnt] at hlt
          omega
        · intro v hv
          rcases List.mem_cons.mp hv with rfl | hv
          · omega
          · have hlt := hbd v hv
            rw [hcnt] at hlt
            omega
      · obtain ⟨hch, hbd⟩ := ih (applyOp st op) hops
        have houts : counterOutputsFor e st (op :: ops) =
            counterOutputsFor e (applyOp st op) ops := by
          cases op with
          | addTab e2 tab => simp [counterOutputsFor, counterOutputs]
          | removeTab e2 t => simp [counterOutputsFor, counterOutputs]
          | setActiveTab e2 t => simp [counterOutputsFor, counterOutputs]
          | reorderTabs e2 i j => simp [counterOutputsFor, counterOutputs]
          | updateTabLabel e2 t l => simp [counterOutputsFor, counterOutputs]
          | incrementCounter e2 =>
              have hne : e2 ≠ e := fun h => hinc (by rw [h])
              simp [counterOutputsFor, counterOutputs, hne]
          | clearEntityTabs e2 => simp [counterOutputsFor, counterOutputs]
        have hcnt := counters_applyOp_ne st e op hop hinc
        rw [houts]
        refine ⟨hch, fun v hv => ?_⟩
        have hlt := hbd v hv
        rw [hcnt] at hlt
        exact hlt

/-- C2 (amended): per entity, successive `incrementCounter` return values
are strictly increasing across any mix of store operations — including
`addTab` and `removeTab` — that contains no `clearEntityTabs` for that
entity.  (`clearEntityTabs` deletes the entity's counter, so the count
restarts from 1 afterwards; see the counterexample.) -/
theorem incrementCounter_strictMono_without_clear (e : String)
    (st : DrawerTabsState) (ops : List DrawerOp)
    (h : DrawerOp.clearEntityTabs e ∉ ops) :
    List.Chain' (· < ·) (counterOutputsFor e st ops) :=
  (counterOutputsFor_chain e ops st h).1

/-- Witness for C2 (amended): counting through an add and a remove yields
the strictly increasing outputs 1, 2, 3. -/
theorem incrementCounter_strictMono_witness :
    List.Chain' (· < ·) (counterOutputsFor "s" initDrawerState
      [DrawerOp.incrementCounter "s", DrawerOp.addTab "s" exampleTab1,
       DrawerOp.incrementCounter "s", DrawerOp.removeTab "s" "t1",
       DrawerOp.incrementCounter "s"]) :=
  incrementCounter_strictMono_without_clear "s" initDrawerState _ (by decide)

/-- Counterexample for C2 as stated: `clearEntityTabs` deletes the counter,
so increment, clear, increment yields the outputs 1, 1 — not strictly
increasing. -/
theorem incrementCounter_reset_counterexample :
    counterOutputsFor "s" initDrawerState
      [DrawerOp.incrementCounter "s", DrawerOp.clearEntityTabs "s",
       DrawerOp.incrementCounter "s"] = [1, 1] ∧
    ¬ List.Chain' (· < ·) ([1, 1] : List Nat) := by
  constructor
  · rfl
  · norm_num [List.chain'_cons]

theorem find?_of_findIdx? {α : Type} (p : α → Bool) :
    ∀ (l : List α) (i : Nat) (t : α), l.findIdx? p = some i → l[i]? = some t →
      l.find? p = some t := by
  intro l
  induction l with
  | nil => intro i t h _; simp at h
  | cons a l ih =>
      intro i t h hg
      rw [List.findIdx?_cons] at h
      by_cases hp : p a
      · rw [if_pos hp] at h
        injection h with h2
        subst h2
        simp at hg
        subst hg
        exact List.find?_cons_of_pos _ hp
      · rw [if_neg hp, List.findIdx?_succ] at h
        rcases Option.map_eq_some'.mp h with ⟨i0, hi0, rfl⟩
        have hg0 : l[i0]? = some t := by simpa using hg
        rw [List.find?_cons_of_neg _ hp]
        exact ih i0 t hi0 hg0

/-- C7: `updateTabLabel` leaves the state identically unchanged — the
store updater returns `prev`, so no change notification fires — precisely
when the entity is unknown, the tab id is not found, or the label equals
the tab's current label; otherwise exactly the targeted tab's record is
replaced (same id and other fields, new label) while all other tabs, all
other entities, and the active/counter/pty maps are untouched. -/
theorem updateTabLabel_noop_and_frame (st : DrawerTabsState)
    (e tabId label : String) :
    (updateTabLabel st e tabId label = st ↔ updateLabelNoop st e tabId label) ∧
    (updateTabLabel st e tabId label).drawerActiveTabIds =
      st.drawerActiveTabIds ∧
    (updateTabLabel st e tabId label).drawerTabCounters =
      st.drawerTabCounters ∧
    (updateTabLabel st e tabId label).drawerPtyIds = st.drawerPtyIds ∧
    (∀ e2, e2 ≠ e →
      (updateTabLabel st e tabId label).drawerTabs e2 = st.drawerTabs e2) ∧
    (∀ tabs i t, st.drawerTabs e = some tabs →
      tabs.findIdx? (fun t2 => t2.id == tabId) = some i →
      tabs[i]? = some t → t.label ≠ label →
      (updateTabLabel st e tabId label).drawerTabs e =
        some (tabs.set i { t with label := label })) := by
  rcases htabs : st.drawerTabs e with _ | tabs
  · have hcore : updateTabLabelCore st e tabId label = none := by
      simp [updateTabLabelCore, htabs]
    have hupd : updateTabLabel st e tabId label = st := by
      simp [updateTabLabel, hcore]
    refine ⟨?_, by rw [hupd], by rw [hupd], by rw [hupd],
      fun e2 _ => by rw [hupd], ?_⟩
    · constructor
      · intro _
        simp [updateLabelNoop, htabs]
      · intro _
        exact hupd
    · intro tabs i t h1
      exact Option.noConfusion h1
  · rcases hidx : tabs.findIdx? (fun t2 => t2.id == tabId) with _ | i
    · have hcore : updateTabLabelCore st e tabId label = none := by
        simp only [updateTabLabelCore, htabs, hidx]
      have hupd : updateTabLabel st e tabId label = st := by
        simp [updateTabLabel, hcore]
      have hfind : tabs.find? (fun t2 => t2.id == tabId) = none := by
        apply List.find?_eq_none.mpr
        intro x hx
        have := List.findIdx?_eq_none_iff.mp hidx x hx
        simp [this]
      refine ⟨?_, by rw [hupd], by rw [hupd], by rw [hupd],
        fun e2 _ => by rw [hupd], ?_⟩
      · constructor
        · intro _
          simp [updateLabelNoop, htabs, hfind]
        · intro _
          exact hupd
      · intro tabs2 i t h1 h2
        injection h1 with h1
        subst h1
        rw [hidx] at h2
        cases h2
    · obtain ⟨hlen, hpi, _⟩ := List.findIdx?_eq_some_iff_getElem.mp hidx
      have hget : tabs[i]? = some tabs[i] := List.getElem?_eq_getElem hlen
      have hfind : tabs.find? (fun t2 => t2.id == tabId) = some tabs[i] :=
        find?_of_findIdx? _ tabs i tabs[i] hidx hget
      by_cases hlab : tabs[i].label = label
      · have hcore : updateTabLabelCore st e tabId label = none := by
          simp only [updateTabLabelCore, htabs, hidx, hget]
          rw [if_pos hlab]
        have hupd : updateTabLabel st e tabId label = st := by
          simp [updateTabLabel, hcore]
        refine ⟨?_, by rw [hupd], by rw [hupd], by rw [hupd],
          fun e2 _ => by rw [hupd], ?_⟩
        · constructor
          · intro _
            simp [updateLabelNoop, htabs, hfind, hlab]
          · intro _
            exact hupd
        · intro tabs2 i2 t h1 h2 h3 h4
          injection h1 with h1
          subst h1
          rw [hidx] at h2
          injection h2 with h2
          subst h2
          rw [hget] at h3
          injection h3 with h3
          exact absurd (h3 ▸ hlab) h4
      · have hcore : updateTabLabelCore st e tabId label =
            some (st.drawerTabs.set e
              (tabs.set i { tabs[i] with label := label })) := by
          simp only [updateTabLabelCore, htabs, hidx, hget]
          rw [if_neg hlab]
        have hupd : updateTabLabel st e tabId label =
            { st with drawerTabs := (st.drawerTabs.set e
                (tabs.set i { tabs[i] with label := label })) } := by
          simp [updateTabLabel, hcore]
        have hnoop : ¬ updateLabelNoop st e tabId label := by
          simp [updateLabelNoop, htabs, hfind, hlab]
        have hchanged : ¬ (updateTabLabel st e tabId label = st) := by
          intro heq
          have htabs2 := congrArg (fun s => s.drawerTabs e) heq
          simp only [hupd] at htabs2
          rw [StrMap.get_set_self, htabs] at htabs2
          injection htabs2 with htabs2
          have hset : i < (tabs.set i { tabs[i] with label := label }).length := by
            rw [List.length_set]
            exact hlen
          have := congrArg (fun l => l.getD i tabs[i]) htabs2
          simp only [List.getD_eq_getElem?_getD] at this
          rw [List.getElem?_eq_getElem hset, List.getElem?_eq_getElem hlen] at this
          simp only [Option.getD_some] at this
          rw [List.getElem_set_self] at this
          have : ({ tabs[i] with label := label } : DrawerTab).label =
              tabs[i].label := by rw [this]
          exact hlab (by simpa using this.symm)
        refine ⟨iff_of_false hchanged hnoop, by rw [hupd], by rw [hupd],
          by rw [hupd], fun e2 he2 => ?_, ?_⟩
        · rw [hupd]
          exact StrMap.get_set_ne _ _ _ _ he2
        · intro tabs2 i2 t h1 h2 h3 _
          injection h1 with h1
          subst h1
          rw [hidx] at h2
          injection h2 with h2
          subst h2
          rw [hget] at h3
          injection h3 with h3
          subst h3
          rw [hupd]
          exact StrMap.get_set_self _ _ _

/-- Witness for C7: updating `t1`'s label to its current value is a state-
identical no-op; updating it to `X` replaces only that tab's label. -/
theorem updateTabLabel_noop_and_frame_witness :
    updateTabLabel exampleState1 "s" "t1" "Terminal 1" = exampleState1 ∧
    (updateTabLabel exampleState1 "s" "t1" "X").drawerTabs "s" =
      some [{ id := "t1", label := "X", type := DrawerTabType.terminal,
              taskName := none }] := by
  constructor
  · exact (updateTabLabel_noop_and_frame exampleState1 "s" "t1" "Terminal 1").1.mpr
      (by show ("Terminal 1" : String) = "Terminal 1"; rfl)
  · have h := (updateTabLabel_noop_and_frame exampleState1 "s" "t1" "X").2.2.2.2.2
      [exampleTab1] 0 exampleTab1 (by decide) (by decide) (by decide) (by decide)
    exact h

theorem mem_eraseIdx_or_eq {α : Type} :
    ∀ (l : List α) (i : Nat) (y : α), l[i]? = some y →
      ∀ x ∈ l, x = y ∨ x ∈ l.eraseIdx i := by
  intro l
  induction l with
  | nil => intro i y h; simp at h
  | cons a t ih =>
      intro i y h x hx
      cases i with
      | zero =>
          simp only [List.getElem?_cons_zero, Option.some.injEq] at h
          rcases List.mem_cons.mp hx with rfl | hx
          · left; exact h
          · right; simpa using hx
      | succ i =>
          have h2 : t[i]? = some y := by simpa using h
          rcases List.mem_cons.mp hx with rfl | hx
          · right; simp
          · rcases ih i y h2 x hx with rfl | hmem
            · left; rfl
            · right; simp [hmem]

theorem mem_arrayMove {α : Type} (l : List α) (i j : Nat) (x : α) (hx : x ∈ l) :
    x ∈ arrayMove l i j := by
  unfold arrayMove
  cases hget : l[i]? with
  | none => exact hx
  | some y =>
      have hins : min j (l.eraseIdx i).length ≤ (l.eraseIdx i).length :=
        Nat.min_le_right _ _
      rw [List.mem_insertIdx hins]
      rcases mem_eraseIdx_or_eq l i y hget x hx with rfl | hmem
      · left; rfl
      · right; exact hmem

theorem mem_ids_set (tabs : List DrawerTab) (i : Nat) (t t2 : DrawerTab)
    (hget : tabs[i]? = some t) (hid : t2.id = t.id) (a : String)
    (ha : a ∈ tabs.map (fun t3 => t3.id)) :
    a ∈ (tabs.set i t2).map (fun t3 => t3.id) := by
  rcases List.mem_map.mp ha with ⟨x, hx, rfl⟩
  rcases List.mem_iff_getElem.mp hx with ⟨k, hk, rfl⟩
  have hlen : (tabs.set i t2).length = tabs.length := List.length_set tabs i t2
  by_cases hik : i = k
  · subst hik
    have hti : tabs[i] = t := by
      have h2 := List.getElem?_eq_getElem hk
      rw [hget] at h2
      injection h2 with h2
      exact h2.symm
    apply List.mem_map.mpr
    have hset : i < (tabs.set i t2).length := by rw [hlen]; exact hk
    refine ⟨(tabs.set i t2)[i], ?_, ?_⟩
    · exact List.mem_iff_getElem.mpr ⟨i, hset, rfl⟩
    · rw [List.getElem_set_self, hid, hti]
  · have hk2 : k < (tabs.set i t2).length := by rw [hlen]; exact hk
    apply List.mem_map.mpr
    refine ⟨(tabs.set i t2)[k], List.mem_iff_getElem.mpr ⟨k, hk2, rfl⟩, ?_⟩
    rw [List.getElem_set_ne hik]

theorem activeInv_applyOp (st : DrawerTabsState) (op : DrawerOp)
    (hinv : ActiveTabInv st) (hgood : goodStep st op = true) :
    ActiveTabInv (applyOp st op) := by
  cases op with
  | addTab e tab =>
      intro e2 a ha
      have hact : (applyOp st (DrawerOp.addTab e tab)).drawerActiveTabIds =
          st.drawerActiveTabIds.set e tab.id := rfl
      have htabs : (applyOp st (DrawerOp.addTab e tab)).drawerTabs =
          st.drawerTabs.set e (((st.drawerTabs e).getD []) ++ [tab]) := rfl
      rw [hact] at ha
      unfold tabIds
      rw [htabs]
      by_cases he : e2 = e
      · subst he
        rw [StrMap.get_set_self] at ha
        injection ha with ha2
        subst ha2
        rw [StrMap.get_set_self]
        simp
      · rw [StrMap.get_set_ne _ _ _ _ he] at ha
        rw [StrMap.get_set_ne _ _ _ _ he]
        exact hinv e2 a ha
  | removeTab e tId =>
      intro e2 a ha
      have htabs : (applyOp st (DrawerOp.removeTab e tId)).drawerTabs =
          st.drawerTabs.set e
            (((st.drawerTabs e).getD []).filter (fun t => t.id != tId)) := rfl
      by_cases hguard : st.drawerActiveTabIds e = some tId
      · cases hlast :
            ((((st.drawerTabs e).getD []).filter (fun t => t.id != tId)).getLast?) with
        | none =>
            have hact : (applyOp st (DrawerOp.removeTab e tId)).drawerActiveTabIds =
                st.drawerActiveTabIds.delete e := by
              simp [applyOp, removeTab, hguard, hlast]
            rw [hact] at ha
            by_cases he : e2 = e
            · subst he
              rw [StrMap.get_delete_self] at ha
              cases ha
            · rw [StrMap.get_delete_ne _ _ _ he] at ha
              unfold tabIds
              rw [htabs, StrMap.get_set_ne _ _ _ _ he]
              exact hinv e2 a ha
        | some t =>
            by_cases hid0 : t.id = ""
            · have hact : (applyOp st (DrawerOp.removeTab e tId)).drawerActiveTabIds =
                  st.drawerActiveTabIds.delete e := by
                simp [applyOp, removeTab, hguard, hlast, hid0]
              rw [hact] at ha
              by_cases he : e2 = e
              · subst he
                rw [StrMap.get_delete_self] at ha
                cases ha
              · rw [StrMap.get_delete_ne _ _ _ he] at ha
                unfold tabIds
                rw [htabs, StrMap.get_set_ne _ _ _ _ he]
                exact hinv e2 a ha
            · have hact : (applyOp st (DrawerOp.removeTab e tId)).drawerActiveTabIds =
                  st.drawerActiveTabIds.set e t.id := by
                simp [applyOp, removeTab, hguard, hlast, hid0]
              rw [hact] at ha
              unfold tabIds
              rw [htabs]
              by_cases he : e2 = e
              · subst he
                rw [StrMap.get_set_self] at ha
                injection ha with ha2
                subst ha2
                rw [StrMap.get_set_self]
                simp only [Option.getD_some]
                exact List.mem_map_of_mem _ (List.mem_of_getLast?_eq_some hlast)
              · rw [StrMap.get_set_ne _ _ _ _ he] at ha
                rw [StrMap.get_set_ne _ _ _ _ he]
                exact hinv e2 a ha
      · have hact : (applyOp st (DrawerOp.removeTab e tId)).drawerActiveTabIds =
            st.drawerActiveTabIds := by
          simp [applyOp, removeTab, hguard]
        rw [hact] at ha
        have hmem := hinv e2 a ha
        unfold tabIds at hmem ⊢
        rw [htabs]
        by_cases he : e2 = e
        · subst he
          have hne : a ≠ tId := by
            intro hh
            exact hguard (by rw [← hh]; exact ha)
          rw [StrMap.get_set_self]
          simp only [Option.getD_some]
          rcases List.mem_map.mp hmem with ⟨t0, ht0, rfl⟩
          apply List.mem_map_of_mem
          apply List.mem_filter.mpr
          refine ⟨ht0, ?_⟩
          simpa [bne_iff_ne] using hne
        · rw [StrMap.get_set_ne _ _ _ _ he]
          exact hmem
  | setActiveTab e tId =>
      have hmem : tId ∈ tabIds st e := by
        simpa [goodStep] using hgood
      by_cases hcond : st.drawerActiveTabIds e = some tId
      · have hstate : applyOp st (DrawerOp.setActiveTab e tId) = st := by
          simp [applyOp, setActiveTab, hcond]
        rw [hstate]
        exact hinv
      · have hact : (applyOp st (DrawerOp.setActiveTab e tId)).drawerActiveTabIds =
            st.drawerActiveTabIds.set e tId := by
          simp [applyOp, setActiveTab, hcond]
        have htabs : (applyOp st (DrawerOp.setActiveTab e tId)).drawerTabs =
            st.drawerTabs := by
          simp [applyOp, setActiveTab, hcond]
        intro e2 a ha
        rw [hact] at ha
        unfold tabIds
        rw [htabs]
        by_cases he : e2 = e
        · subst he
          rw [StrMap.get_set_self] at ha
          injection ha with ha2
          subst ha2
          exact hmem
        · rw [StrMap.get_set_ne _ _ _ _ he] at ha
          exact hinv e2 a ha
  | reorderTabs e i j =>
      intro e2 a ha
      cases htabse : st.drawerTabs e with
      | none =>
          have hstate : applyOp st (DrawerOp.reorderTabs e i j) = st := by
            simp [applyOp, reorderTabs, htabse]
          rw [hstate] at ha ⊢
          exact hinv e2 a ha
      | some tabs =>
          have htabs : (applyOp st (DrawerOp.reorderTabs e i j)).drawerTabs =
              st.drawerTabs.set e (arrayMove tabs i j) := by
            simp [applyOp, reorderTabs, htabse]
          have hact : (applyOp st (DrawerOp.reorderTabs e i j)).drawerActiveTabIds =
              st.drawerActiveTabIds := by
            simp [applyOp, reorderTabs, htabse]
          rw [hact] at ha
          have hmem := hinv e2 a ha
          unfold tabIds at hmem ⊢
          rw [htabs]
          by_cases he : e2 = e
          · subst he
            rw [StrMap.get_set_self]
            rw [htabse] at hmem
            simp only [Option.getD_some] at hmem ⊢
            rcases List.mem_map.mp hmem with ⟨t0, ht0, rfl⟩
            exact List.mem_map_of_mem _ (mem_arrayMove tabs i j t0 ht0)
          · rw [StrMap.get_set_ne _ _ _ _ he]
            exact hmem
  | updateTabLabel e tId lab =>
      intro e2 a ha
      cases hcore : updateTabLabelCore st e tId lab with
      | none =>
          have hstate : applyOp st (DrawerOp.updateTabLabel e tId lab) = st := by
            simp [applyOp, updateTabLabel, hcore]
          rw [hstate] at ha ⊢
          exact hinv e2 a ha
      | some m =>
          rcases htabse : st.drawerTabs e with _ | tabs
          · exact absurd hcore (by simp [updateTabLabelCore, htabse])
          rcases hidx : tabs.findIdx? (fun t2 => t2.id == tId) with _ | i
          · exact absurd hcore (by simp [updateTabLabelCore, htabse, hidx])
          rcases hget2 : tabs[i]? with _ | t0
          · exact absurd hcore (by simp [updateTabLabelCore, htabse, hidx, hget2])
          by_cases hlab : t0.label = lab
          · exact absurd hcore
              (by simp [updateTabLabelCore, htabse, hidx, hget2, hlab])
          · have hm : m = st.drawerTabs.set e (tabs.set i { t0 with label := lab }) := by
              have h2 := hcore
              simp [updateTabLabelCore, htabse, hidx, hget2, hlab] at h2
              exact h2.symm
            have hact : (applyOp st (DrawerOp.updateTabLabel e tId lab)).drawerActiveTabIds =
                st.drawerActiveTabIds := by
              simp [applyOp, updateTabLabel, hcore]
            have htabs : (applyOp st (DrawerOp.updateTabLabel e tId lab)).drawerTabs = m := by
              simp [applyOp, updateTabLabel, hcore]
            rw [hact] at ha
            have hmem := hinv e2 a ha
            unfold tabIds at hmem ⊢
            rw [htabs, hm]
            by_cases he : e2 = e
            · subst he
              rw [StrMap.get_set_self]
              rw [htabse] at hmem
              simp only [Option.getD_some] at hmem ⊢
              exact mem_ids_set tabs i t0 { t0 with label := lab } hget2 rfl a hmem
            · rw [StrMap.get_set_ne _ _ _ _ he]
              exact hmem
  | incrementCounter e =>
      intro e2 a ha
      exact hinv e2 a ha
  | clearEntityTabs e =>
      intro e2 a ha
      have hact : (applyOp st (DrawerOp.clearEntityTabs e)).drawerActiveTabIds =
          st.drawerActiveTabIds.delete e := rfl
      have htabs : (applyOp st (DrawerOp.clearEntityTabs e)).drawerTabs =
          st.drawerTabs.delete e := rfl
      rw [hact] at ha
      unfold tabIds
      rw [htabs]
      by_cases he : e2 = e
      · subst he
        rw [StrMap.get_delete_self] at ha
        cases ha
      · rw [StrMap.get_delete_ne _ _ _ he] at ha
        rw [StrMap.get_delete_ne _ _ _ he]
        exact hinv e2 a ha

theorem validRun_activeInv :
    ∀ (ops : List DrawerOp) (st : DrawerTabsState), ActiveTabInv st →
      validRun st ops = true → ActiveTabInv (runOps st ops) := by
  intro ops
  induction ops with
  | nil => intro st h _; exact h
  | cons op ops ih =>
      intro st h hv
      rw [validRun, Bool.and_eq_true] at hv
      exact ih (applyOp st op) (activeInv_applyOp st op h hv.1) hv.2

/-- C3 (amended): every state reached from the empty store by a sequence of
store operations in which each `setActiveTab` targets a tab id currently in
that entity's list satisfies the invariant: a non-null active tab id is
always a member of its entity's tab list.  (The restriction on
`setActiveTab` is necessary: the code does not validate membership, so an
unrestricted `setActiveTab` breaks the invariant — see the
counterexample.) -/
theorem activeTab_membership_invariant (ops : List DrawerOp)
    (h : validRun initDrawerState ops = true) :
    ActiveTabInv (runOps initDrawerState ops) :=
  validRun_activeInv ops initDrawerState
    (fun _ _ ha => Option.noConfusion ha) h

/-- Witness for C3 (amended): adding a tab and then activating it by id
keeps the invariant. -/
theorem activeTab_membership_invariant_witness :
    ActiveTabInv (runOps initDrawerState
      [DrawerOp.addTab "s" exampleTab1, DrawerOp.setActiveTab "s" "t1"]) :=
  activeTab_membership_invariant _ (by decide)

/-- Counterexample for C3 as stated: `setActiveTab` on the empty store sets
the active pointer to an id that is in no tab list, so the invariant does
not hold for arbitrary operation sequences. -/
theorem activeTab_membership_counterexample :
    ¬ ActiveTabInv (runOps initDrawerState [DrawerOp.setActiveTab "s" "x"]) := by
  intro h
  have hx := h "s" "x" rfl
  exact absurd hx (by decide)

end Shellflow
